import Mathlib

/-!
Verification development for the ssnproj secure file-transfer engine.

Shallow embedding of the Go sources:
  * pkg/protocol/message.go  — frame codec, stream reassembly buffer, command /
    response payload codecs;
  * pkg/server/commands.go   — command executor (path validation, chunked
    download, upload / delete / list);
  * the server connection handler (handleHandshake / handleMessage /
    HandleRawRequest);
  * pkg/client/client.go     — client chunk-receive loop.

Bytes are modelled as `Nat` values (each < 256 on the wire); Go `uint32` /
`uint64` / `uint16` wrap-around is made explicit with `u32` / `u64` / `u16`.
Strings are modelled as `List Char`.  Fallible Go functions return `Except` /
`Option`; a Go runtime panic (slice bounds out of range) is modelled as
`Option.none`.
-/

set_option maxHeartbeats 1000000

/-- Wrap-around of Go `uint32` conversions. -/
def u32 (n : Nat) : Nat := n % 4294967296

/-- Wrap-around of Go `uint64` conversions. -/
def u64 (n : Nat) : Nat := n % 18446744073709551616

/-- Wrap-around of Go `uint16` conversions. -/
def u16 (n : Nat) : Nat := n % 65536

/-- Big-endian 4-byte encoding of a `uint32` value (binary.BigEndian.PutUint32). -/
def be32bytes (n : Nat) : List Nat :=
  [n / 16777216 % 256, n / 65536 % 256, n / 256 % 256, n % 256]

/-- Big-endian 4-byte decoding (binary.BigEndian.Uint32). -/
def be32val (a b c d : Nat) : Nat := a * 16777216 + b * 65536 + c * 256 + d

/-- Big-endian 2-byte encoding of a `uint16` value (binary.BigEndian.PutUint16). -/
def be16bytes (n : Nat) : List Nat := [n / 256 % 256, n % 256]

/-- Big-endian 2-byte decoding (binary.BigEndian.Uint16). -/
def be16val (a b : Nat) : Nat := a * 256 + b

/-- Protocol message: `Message` of pkg/protocol/message.go (`Type` is one byte:
Handshake = 1, Command = 2, Data = 3, Response = 4). -/
structure Message where
  type : Nat
  payload : List Nat
deriving DecidableEq, Repr, Inhabited

/-- `Message.Serialize` of message.go: one type byte, 4-byte big-endian payload
length (`uint32(len(m.Payload))`), then the payload verbatim. -/
def Message.serialize (m : Message) : List Nat :=
  (m.type % 256) :: (be32bytes (u32 m.payload.length) ++ m.payload)

/-- Error outcomes of the protocol deserializers in message.go.  `eofErr` is the
`io.EOF` produced by `bytes.Reader.Read`; `dataTooShort` is the
"data too short" error; the last two are `ErrInsufficientData` and
`ErrIncompletePayload`. -/
inductive MsgErr
  | dataTooShort
  | eofErr
  | insufficientData
  | incompletePayload
deriving DecidableEq, Repr

/-- `Deserialize` of message.go.  After the 5 header bytes are consumed the
payload is read with `bytes.Reader.Read`, which returns `io.EOF` whenever no
byte remains (even when the declared length is 0), and otherwise copies as many
bytes as are available into the zero-initialised payload buffer without
reporting an error — a short read therefore yields a zero-padded payload. -/
def deserialize : List Nat → Except MsgErr Message
  | t :: a :: b :: c :: d :: rest =>
    if rest.length = 0 then .error .eofErr
    else
      let plen := be32val a b c d
      .ok ⟨t, rest.take plen ++ List.replicate (plen - rest.length) 0⟩
  | _ => .error .dataTooShort

/-- `MessageBuffer.TryDeserialize` of message.go: with fewer than 5 buffered
bytes report `ErrInsufficientData`; otherwise read the declared length from
bytes 1..4, report `ErrIncompletePayload` when the whole frame has not arrived,
and otherwise run `Deserialize` on the frame bytes and drop them from the
buffer on success.  Every error branch returns the buffer unchanged. -/
def tryDeserialize (buf : List Nat) : Except MsgErr Message × List Nat :=
  if buf.length < 5 then (.error .insufficientData, buf)
  else
    let plen := be32val (buf.getD 1 0) (buf.getD 2 0) (buf.getD 3 0) (buf.getD 4 0)
    if buf.length < 5 + plen then (.error .incompletePayload, buf)
    else
      match deserialize (buf.take (5 + plen)) with
      | .error e => (.error e, buf)
      | .ok m => (.ok m, buf.drop (5 + plen))

/-- Repeated draining of the reassembly buffer, as the inner loop of
`HandleRawRequest` does after each read: call `TryDeserialize` until it reports
an error, collecting the parsed messages.  The fuel argument only serves
termination; `drain` supplies `buf.length`, which bounds the number of
successful parses since each one consumes at least 5 bytes. -/
def drainLoop : Nat → List Nat → List Message × List Nat × MsgErr
  | 0, buf => ([], buf, .insufficientData)
  | fuel + 1, buf =>
    match tryDeserialize buf with
    | (.error e, b) => ([], b, e)
    | (.ok m, b) =>
      let r := drainLoop fuel b
      (m :: r.1, r.2)

/-- Drain the buffer completely: messages yielded, remaining buffer, and the
error that stopped the drain. -/
def drain (buf : List Nat) : List Message × List Nat × MsgErr :=
  drainLoop buf.length buf

/-- Feed a sequence of fragments into the reassembly buffer, draining after
each feed (the read loop of `HandleRawRequest`).  Returns all messages yielded
in order and the final buffer contents. -/
def feedLoop : List Nat → List (List Nat) → List Message × List Nat
  | buf, [] => ([], buf)
  | buf, frag :: frags =>
    let r := drain (buf ++ frag)
    let rest := feedLoop r.2.1 frags
    (r.1 ++ rest.1, rest.2)

/-- Frames on which the codec behaves as a codec: byte-sized tag, payload that
fits the 4-byte length field, and — crucially — a non-empty payload. -/
def goodFrame (m : Message) : Prop :=
  m.type < 256 ∧ 0 < m.payload.length ∧ m.payload.length < 4294967296

instance : DecidablePred goodFrame := fun m => by
  unfold goodFrame; infer_instance

/-- Buffer states in which `TryDeserialize` reports "not ready" (NeedHeader or
NeedPayload). -/
def isIncomplete (buf : List Nat) : Bool :=
  decide (buf.length < 5) ||
    decide (buf.length < 5 + be32val (buf.getD 1 0) (buf.getD 2 0) (buf.getD 3 0) (buf.getD 4 0))

/-- The error `TryDeserialize` reports on a not-ready buffer. -/
def stallErr (buf : List Nat) : MsgErr :=
  if buf.length < 5 then .insufficientData else .incompletePayload

/-- `CommandMessage` of message.go (Upload = 1, Download = 2, List = 3,
Delete = 4). -/
structure CommandMessage where
  command : Nat
  filename : List Nat
  data : List Nat
deriving DecidableEq, Repr, Inhabited

/-- `ResponseMessage` of message.go. -/
structure ResponseMessage where
  success : Bool
  message : List Nat
  data : List Nat
deriving DecidableEq, Repr, Inhabited

/-- `SerializeCommand` of message.go: command byte, 2-byte big-endian filename
length (`uint16(len(filename))`), filename bytes, then the data verbatim. -/
def serializeCommand (cmd : Nat) (filename : List Nat) (data : List Nat) : List Nat :=
  (cmd % 256) :: (be16bytes (u16 filename.length) ++ filename ++ data)

/-- Errors of the payload decoders: the "command data too short" /
"response data too short" guard, and the `io.EOF` from `bytes.Reader.Read`. -/
inductive DecErr
  | tooShort
  | eofErr
deriving DecidableEq, Repr

/-- `DeserializeCommand` of message.go.  After the 3 header bytes,
`buf.Read(filename)` returns `io.EOF` exactly when no byte remains (even for a
declared length of 0); when bytes remain it copies as many as are available
into the zero-initialised buffer and reports no error, so a declared filename
length exceeding the available bytes yields a zero-padded filename.  The final
`buf.Read(remaining)` tolerates `io.EOF`. -/
def deserializeCommand : List Nat → Except DecErr CommandMessage
  | c :: l1 :: l2 :: rest =>
    if rest.length = 0 then .error .eofErr
    else
      let flen := be16val l1 l2
      .ok ⟨c, rest.take flen ++ List.replicate (flen - rest.length) 0, rest.drop flen⟩
  | _ => .error .tooShort

/-- `SerializeResponse` of message.go: success flag byte (1 / 0), 2-byte
big-endian message length, message bytes, then the data verbatim. -/
def serializeResponse (success : Bool) (message : List Nat) (data : List Nat) : List Nat :=
  (if success then 1 else 0) :: (be16bytes (u16 message.length) ++ message ++ data)

/-- `DeserializeResponse` of message.go; same `bytes.Reader` semantics as
`deserializeCommand`. -/
def deserializeResponse : List Nat → Except DecErr ResponseMessage
  | s :: l1 :: l2 :: rest =>
    if rest.length = 0 then .error .eofErr
    else
      let mlen := be16val l1 l2
      .ok ⟨s = 1, rest.take mlen ++ List.replicate (mlen - rest.length) 0, rest.drop mlen⟩
  | _ => .error .tooShort

/-- ASCII bytes of a string (the strings involved are ASCII, so `Char.toNat`
coincides with UTF-8). -/
def asciiBytes (s : String) : List Nat := s.data.map Char.toNat

/-! ## Chunked download (pkg/server/commands.go) -/

/-- Chunk-size configuration constants of commands.go. -/
def smallFileThreshold : Nat := 262144

def mediumFileThreshold : Nat := 5242880

def smallChunkSize : Nat := 65536

def mediumChunkSize : Nat := 131072

def largeChunkSize : Nat := 262144

/-- `ChunkDataMessage` of pkg/protocol (fields as used by `sendFileInChunks`
and `receiveFileChunks`). -/
structure ChunkDataMessage where
  filename : List Char
  chunkIndex : Nat
  totalChunks : Nat
  chunkSize : Nat
  totalSize : Nat
  data : List Nat
deriving DecidableEq, Repr, Inhabited

/-- Chunk-size selection switch of `sendFileInChunks`. -/
def chunkSizeFor (totalSize : Nat) : Nat :=
  if totalSize < smallFileThreshold then smallChunkSize
  else if totalSize < mediumFileThreshold then mediumChunkSize
  else largeChunkSize

/-- Go slice expression `xs[s:e]`: defined when `s ≤ e ≤ len(xs)`, otherwise it
panics (modelled as `none`). -/
def sliceGo (xs : List Nat) (s e : Nat) : Option (List Nat) :=
  if s ≤ e ∧ e ≤ xs.length then some ((xs.drop s).take (e - s)) else none

/-- Body of the `for i := uint32(0); i < totalChunks; i++` loop of
`sendFileInChunks`: `start := i * chunkSize` and `end := start + chunkSize` in
`uint32` arithmetic, `end` clamped to `uint32(totalSize)`, chunk data
`fileData[start:end]`, and the chunk's `ChunkSize` field set to
`uint32(len(chunkData))`.  The fuel argument counts the remaining iterations
(`totalChunks - i`); a slice panic aborts the whole send with `none`. -/
def sendChunksLoop (filename : List Char) (fileData : List Nat)
    (chunkSize totalChunks totalSize : Nat) : Nat → Nat → Option (List ChunkDataMessage)
  | _, 0 => some []
  | i, fuel + 1 =>
    let start := u32 (i * chunkSize)
    let e0 := u32 (start + chunkSize)
    let e := if u32 totalSize < e0 then u32 totalSize else e0
    match sliceGo fileData start e with
    | none => none
    | some chunkData =>
      match sendChunksLoop filename fileData chunkSize totalChunks totalSize (i + 1) fuel with
      | none => none
      | some rest =>
        some (⟨filename, i, totalChunks, u32 chunkData.length, totalSize, chunkData⟩ :: rest)

/-- `sendFileInChunks` of commands.go: `totalSize := uint64(len(fileData))`,
chunk size from the file-size switch,
`totalChunks := uint32((totalSize + chunkSize - 1) / chunkSize)`, then the
emission loop.  The result is the list of `ChunkDataMessage` values sent, in
order; `none` models the Go slice-bounds panic. -/
def sendFileInChunks (filename : List Char) (fileData : List Nat) :
    Option (List ChunkDataMessage) :=
  let totalSize := u64 fileData.length
  let cs := chunkSizeFor totalSize
  let tc := u32 (u64 (totalSize + cs - 1) / cs)
  sendChunksLoop filename fileData cs tc totalSize 0 tc

/-! ## Client chunk-receive loop (pkg/client/client.go) -/

/-- One inbound (already unsealed) message as seen by `receiveFileChunks`:
either a Data frame carrying a parsed chunk, a Response frame (parsed), or a
frame of another type. -/
inductive InMsg
  | dataMsg (c : ChunkDataMessage)
  | respMsg (success : Bool) (message : List Char)
  | otherMsg (t : Nat)
deriving DecidableEq, Repr

/-- Client-side errors surfaced by `receiveFileChunks`. -/
inductive DlErr
  | receiveFailure
  | unexpectedType
  | filenameMismatch
  | incompleteDownload
  | sizeMismatch
deriving DecidableEq, Repr

/-- The receive loop of `receiveFileChunks` of client.go.  State: chunks
received so far, `totalSize` and `totalChunks` (captured from the first chunk
only — when `chunks` is non-empty the incoming chunk's fields are ignored),
and the bytes written to the output file so far.  A Response message with
success flag set ends the loop; any other non-Data message is an error; a
chunk whose filename differs from the requested one is an error; the loop ends
once `len(chunks) >= int(totalChunks)`.  Running out of input models a blocked
`ReceiveSecureMessage`. -/
def receiveChunksLoop (filename : List Char) :
    List InMsg → List ChunkDataMessage → Nat → Nat → List Nat →
    Except DlErr (List ChunkDataMessage × Nat × Nat × List Nat)
  | [], _, _, _, _ => .error .receiveFailure
  | msg :: rest, chunks, ts, tc, written =>
    match msg with
    | .respMsg success _ =>
      if success then .ok (chunks, ts, tc, written) else .error .unexpectedType
    | .otherMsg _ => .error .unexpectedType
    | .dataMsg c =>
      if c.filename ≠ filename then .error .filenameMismatch
      else
        let ts2 := if chunks.isEmpty then c.totalSize else ts
        let tc2 := if chunks.isEmpty then c.totalChunks else tc
        let written2 := written ++ c.data
        let chunks2 := chunks ++ [c]
        if tc2 ≤ chunks2.length then .ok (chunks2, ts2, tc2, written2)
        else receiveChunksLoop filename rest chunks2 ts2 tc2 written2

/-- `receiveFileChunks` of client.go: run the receive loop from the empty
state, then verify that the number of chunks equals the captured
`totalChunks` and that the output file size equals the captured `totalSize`.
Returns the bytes written to the output file. -/
def receiveFileChunks (filename : List Char) (msgs : List InMsg) :
    Except DlErr (List Nat) :=
  match receiveChunksLoop filename msgs [] 0 0 [] with
  | .error e => .error e
  | .ok (chunks, ts, tc, written) =>
    if chunks.length ≠ tc then .error .incompleteDownload
    else if written.length ≠ ts then .error .sizeMismatch
    else .ok written

/-! ## Lexical path handling (path/filepath, Unix rules) -/

/-- Boolean prefix test on character lists (strings.HasPrefix). -/
def listStarts : List Char → List Char → Bool
  | [], _ => true
  | _ :: _, [] => false
  | a :: as, b :: bs => a = b && listStarts as bs

/-- Boolean substring test on character lists (strings.Contains). -/
def listHasSub (p : List Char) : List Char → Bool
  | [] => listStarts p []
  | s :: rest => listStarts p (s :: rest) || listHasSub p rest

/-- Split a character list at every slash (including empty segments). -/
def splitSlashAux (cur : List Char) : List Char → List (List Char)
  | [] => [cur.reverse]
  | c :: cs => if c = '/' then cur.reverse :: splitSlashAux [] cs else splitSlashAux (c :: cur) cs

/-- Non-empty slash-separated components of a path. -/
def pathComps (s : List Char) : List (List Char) :=
  (splitSlashAux [] s).filter (fun c => !c.isEmpty)

/-- Component processing of `filepath.Clean` (Unix): skip `.`; for `..` pop a
previous real component, keep `..` at the head of a relative path, and drop
`..` at the root of an absolute path; keep everything else.  The accumulator
holds the output components in reverse. -/
def cleanStack (rooted : Bool) : List (List Char) → List (List Char) → List (List Char)
  | acc, [] => acc.reverse
  | acc, comp :: rest =>
    if comp = ['.'] then cleanStack rooted acc rest
    else if comp = ['.', '.'] then
      match acc with
      | top :: acc2 =>
        if top = ['.', '.'] then cleanStack rooted (comp :: top :: acc2) rest
        else cleanStack rooted acc2 rest
      | [] => if rooted then cleanStack rooted [] rest else cleanStack rooted [comp] rest
    else cleanStack rooted (comp :: acc) rest

/-- Join components with slashes. -/
def joinSlash : List (List Char) → List Char
  | [] => []
  | [c] => c
  | c :: rest => c ++ '/' :: joinSlash rest

/-- `filepath.Clean` for Unix paths, at the level of path components (the
byte-level Go algorithm computes exactly this: resolve `.` and `..` lexically,
collapse repeated slashes, drop trailing slashes; an empty result is `.` for a
relative path and `/` for an absolute one). -/
def clean (s : List Char) : List Char :=
  if s.isEmpty then ['.']
  else
    let rooted := s.head? = some '/'
    let comps := cleanStack rooted [] (pathComps s)
    let body := joinSlash comps
    if rooted then '/' :: body
    else if body.isEmpty then ['.'] else body

/-- `filepath.Join` of two non-empty elements for Unix paths:
`Clean(a + "/" + b)` (Go joins the non-empty arguments with a separator and
cleans the result). -/
def goJoin (a b : List Char) : List Char :=
  if a.isEmpty then clean b
  else if b.isEmpty then clean a
  else clean (a ++ '/' :: b)

/-- `filepath.IsAbs` for Unix paths. -/
def isAbsPath (s : List Char) : Bool := s.head? = some '/'

/-! ## Command executor (pkg/server/commands.go) -/

/-- `getClientDir` of commands.go, modelling the SHA-256 based client-id
derivation abstractly: `clientId k` stands for
`hex.EncodeToString(sha256.Sum256(k)[:8])`.  With a nil or empty AES key the
configured root directory itself is returned and no directory is created;
otherwise the per-client directory `filepath.Join(root, clientId)` is created
with `os.MkdirAll` (the returned flag records whether `MkdirAll` was
invoked). -/
def getClientDir (clientId : List Nat → List Char) (rootDir : List Char)
    (aesKey : Option (List Nat)) : List Char × Bool :=
  match aesKey with
  | none => (rootDir, false)
  | some k => if k.length = 0 then (rootDir, false)
              else (goJoin rootDir (clientId k), true)

/-- Rejection reasons of `validatePath`. -/
inductive PathErr
  | emptyFilename
  | absolutePath
  | traversal
deriving DecidableEq, Repr

/-- `validatePath` of commands.go: reject empty filenames and absolute paths;
resolve the client directory; build `filepath.Join(absRoot, filename)`, clean
it, and require the result to begin with the root followed by a separator or
to equal the root.  `filepath.Abs` is modelled as `Clean` under the standing
assumption that the configured root is an absolute path (the resolution then
does not consult the working directory). -/
def validatePath (clientId : List Nat → List Char) (rootDir : List Char)
    (aesKey : Option (List Nat)) (filename : List Char) : Except PathErr (List Char) :=
  if filename.isEmpty then .error .emptyFilename
  else if isAbsPath filename then .error .absolutePath
  else
    let dir := (getClientDir clientId rootDir aesKey).1
    let absRoot := clean dir
    let fullPath := goJoin absRoot filename
    let cleanPath := clean fullPath
    let absPath := clean cleanPath
    if listStarts (absRoot ++ ['/']) absPath || absPath = absRoot then .ok absPath
    else .error .traversal

/-- Decoded form of one sealed Response sent by a command handler. -/
structure SentResponse where
  success : Bool
  message : List Char
deriving DecidableEq, Repr

/-- Observable outcome of one command handler invocation: the Responses sent
(in order), the chunk Data messages sent, the file writes and removals
performed, and whether the handler returned a non-nil Go error to its caller
(`HandleRawRequest` closes the connection exactly when it did). -/
structure ExecResult where
  responses : List SentResponse
  sentChunks : List ChunkDataMessage
  writes : List (List Char × List Nat)
  removes : List (List Char)
  retErr : Bool
deriving DecidableEq, Repr

/-- `handleUpload` of commands.go.  On a path-validation failure it sends the
failure Response "Invalid filename" and returns the validation error; on a
write failure (environment flag `writeOk = false`) it sends "Failed to write
file" and returns the error; otherwise it writes the decoded data to the
resolved path and sends the success Response. -/
def handleUpload (clientId : List Nat → List Char) (rootDir : List Char)
    (aesKey : Option (List Nat)) (writeOk : Bool) (filename : List Char)
    (data : List Nat) : ExecResult :=
  match validatePath clientId rootDir aesKey filename with
  | .error _ => ⟨[⟨false, "Invalid filename".data⟩], [], [], [], true⟩
  | .ok path =>
    if writeOk then ⟨[⟨true, "File uploaded successfully".data⟩], [], [(path, data)], [], false⟩
    else ⟨[⟨false, "Failed to write file".data⟩], [], [], [], true⟩

/-- Read-only filesystem view: the files reachable by the server, keyed by
resolved path. -/
def FileSys := List (List Char × List Nat)

/-- Lookup in the filesystem view. -/
def fsRead (fs : FileSys) (path : List Char) : Option (List Nat) :=
  match fs.find? (fun e => e.1 = path) with
  | some e => some e.2
  | none => none

/-- `handleDownload` of commands.go.  Path-validation failure: failure Response
"Invalid filename", error returned.  Unreadable file: failure Response
"File not found or failed to read", nil returned (connection stays open).
Otherwise: success Response "Starting chunked download" followed by the chunk
Data messages of `sendFileInChunks`; `none` propagates the slice-bounds panic
of the chunk loop. -/
def handleDownload (clientId : List Nat → List Char) (rootDir : List Char)
    (aesKey : Option (List Nat)) (fs : FileSys) (filename : List Char) :
    Option ExecResult :=
  match validatePath clientId rootDir aesKey filename with
  | .error _ => some ⟨[⟨false, "Invalid filename".data⟩], [], [], [], true⟩
  | .ok path =>
    match fsRead fs path with
    | none => some ⟨[⟨false, "File not found or failed to read".data⟩], [], [], [], false⟩
    | some fileData =>
      match sendFileInChunks filename fileData with
      | none => none
      | some chunks =>
        some ⟨[⟨true, "Starting chunked download".data⟩], chunks, [], [], false⟩

/-- `handleDelete` of commands.go.  Path-validation failure: failure Response
"Invalid filename", error returned.  Missing file: failure Response
"File not found", nil returned.  Otherwise the file is removed and the success
Response sent. -/
def handleDelete (clientId : List Nat → List Char) (rootDir : List Char)
    (aesKey : Option (List Nat)) (fs : FileSys) (filename : List Char) : ExecResult :=
  match validatePath clientId rootDir aesKey filename with
  | .error _ => ⟨[⟨false, "Invalid filename".data⟩], [], [], [], true⟩
  | .ok path =>
    match fsRead fs path with
    | none => ⟨[⟨false, "File not found".data⟩], [], [], [], false⟩
    | some _ => ⟨[⟨true, "File deleted successfully".data⟩], [], [], [path], false⟩

/-- strings.Join with a newline separator. -/
def joinNl : List (List Char) → List Char
  | [] => []
  | [n] => n
  | n :: rest => n ++ '\n' :: joinNl rest

/-- `handleList` of commands.go, with the `os.ReadDir` outcome supplied by the
environment: `none` models a directory-read failure ("Failed to read
directory", error returned), `some names` the listing, answered by a success
Response joining the names with newlines. -/
def handleList (dirListing : Option (List (List Char))) : ExecResult :=
  match dirListing with
  | none => ⟨[⟨false, "Failed to read directory".data⟩], [], [], [], true⟩
  | some names => ⟨[⟨true, joinNl names⟩], [], [], [], false⟩

/-! ## Server connection handler (server package) -/

/-- Connection states of the server (`ConnectionState`). -/
inductive ConnPhase
  | phaseNew
  | phaseHandshake
  | phaseAuthenticated
  | phaseClosed
deriving DecidableEq, Repr

/-- Per-connection state relevant to the handshake logic: the `state` field and
the `aesKey` field of `ConnectionHandler` (nil modelled as `none`). -/
structure ConnSt where
  phase : ConnPhase
  aesKey : Option (List Nat)
deriving DecidableEq, Repr

/-- A frame emitted by the connection handler: written in the clear with
`conn.Write(msg.Serialize())`, or sealed with `SendSecureMessage` (payload
AES-encrypted before framing). -/
inductive SentFrame
  | plainFrame (m : Message)
  | secureFrame (m : Message)
deriving DecidableEq, Repr

/-- Payload of the handshake confirmation: the raw bytes of the Go string
literal "handshake complete" (`[]byte("handshake complete")`). -/
def handshakeCompleteBytes : List Nat := asciiBytes "handshake complete"

/-- `handleHandshake` of the connection handler: set the state to Handshake,
decrypt the transported AES key with the server RSA private key (`rsaDecrypt`
abstracts `rsaUtil.DecryptWithPrivateKey` for the server key), store it in
`aesKey`, write the cleartext Response frame
`NewMessage(MessageTypeResponse, []byte("handshake complete"))`, and set the
state to Authenticated. -/
def handleHandshake (rsaDecrypt : List Nat → List Nat) (st : ConnSt)
    (payload : List Nat) : ConnSt × List SentFrame :=
  let _ := { st with phase := ConnPhase.phaseHandshake }
  (⟨ConnPhase.phaseAuthenticated, some (rsaDecrypt payload)⟩,
    [SentFrame.plainFrame ⟨4, handshakeCompleteBytes⟩])

/-- `handleMessage` of the connection handler.  A Handshake frame is handed to
`handleHandshake` unconditionally — the current state is not consulted.  Any
other frame requires an AES key; its payload is unsealed with `aesDecrypt`
(abstracting `aesUtil.Decrypt`, `none` = authentication failure); a Command
frame is decoded and dispatched (`runCmd` abstracts `cmdHandler.handle`,
returning the frames it sent and whether it returned a non-nil error).  The
result's third component records whether `handleMessage` returned a non-nil
error; `HandleRawRequest` closes the connection exactly in that case. -/
def handleMessage (rsaDecrypt : List Nat → List Nat)
    (aesDecrypt : List Nat → List Nat → Option (List Nat))
    (runCmd : CommandMessage → List SentFrame × Bool)
    (st : ConnSt) (m : Message) : ConnSt × List SentFrame × Bool :=
  if m.type = 1 then
    let r := handleHandshake rsaDecrypt st m.payload
    (r.1, r.2, false)
  else
    match st.aesKey with
    | none => (st, [], true)
    | some key =>
      match aesDecrypt key m.payload with
      | none => (st, [], true)
      | some plain =>
        if m.type = 2 then
          match deserializeCommand plain with
          | .error _ => (st, [], true)
          | .ok cmd =>
            let r := runCmd cmd
            (st, r.1, r.2)
        else (st, [], true)

/-- Connection phase after `HandleRawRequest` processes one message in state
`st`: the loop calls `conn.Close()` and returns whenever `handleMessage`
returns a non-nil error, and keeps reading otherwise. -/
def phaseAfterMessage (rsaDecrypt : List Nat → List Nat)
    (aesDecrypt : List Nat → List Nat → Option (List Nat))
    (runCmd : CommandMessage → List SentFrame × Bool)
    (st : ConnSt) (m : Message) : ConnPhase :=
  let r := handleMessage rsaDecrypt aesDecrypt runCmd st m
  if r.2.2 then ConnPhase.phaseClosed else r.1.phase

/-- The in-root test of `validatePath`, as an explicit predicate on the
filename: the cleaned join of the (cleaned) session root and the filename must
start with the root followed by a separator or equal the root. -/
def inRootResolved (clientId : List Nat → List Char) (rootDir : List Char)
    (aesKey : Option (List Nat)) (filename : List Char) : Bool :=
  let absRoot := clean (getClientDir clientId rootDir aesKey).1
  let absPath := clean (clean (goJoin absRoot filename))
  listStarts (absRoot ++ ['/']) absPath || absPath = absRoot

/-- Connection outcome after `HandleRawRequest` dispatches one command to the
executor: the read loop closes the connection exactly when the handler
returned a non-nil error (`if err != nil ... conn.Close()`). -/
def connClosedAfterExec (r : ExecResult) : Bool := r.retErr

/-- Canonical form of the chunk list produced by `sendChunksLoop` when no
`uint32` wrap occurs: chunk `i` carries `(F.drop (i*cs)).take cs` and a
`chunkSize` field of `min cs (n − i*cs)`.  Used to state the chunk-sum
theorem. -/
def chunksFrom (fn : List Char) (F : List Nat) (cs tc n : Nat) :
    Nat → Nat → List ChunkDataMessage
  | _, 0 => []
  | i, fuel + 1 =>
    ⟨fn, i, tc, min cs (n - i * cs), n, (F.drop (i * cs)).take cs⟩ ::
      chunksFrom fn F cs tc n (i + 1) fuel

/-! # Theorems -/

/-! ## Helper lemmas on the frame codec -/

theorem be32bytes_reconstruct (n : Nat) :
    be32val (n / 16777216 % 256) (n / 65536 % 256) (n / 256 % 256) (n % 256) =
      n % 4294967296 := by
  unfold be32val
  omega

theorem serialize_shape (m : Message) :
    m.serialize = (m.type % 256) :: (u32 m.payload.length) / 16777216 % 256 ::
      (u32 m.payload.length) / 65536 % 256 :: (u32 m.payload.length) / 256 % 256 ::
      (u32 m.payload.length) % 256 :: m.payload := by
  simp [Message.serialize, be32bytes]

theorem serialize_length (m : Message) : m.serialize.length = 5 + m.payload.length := by
  simp [serialize_shape m]; omega

theorem deserialize_serialize (m : Message) (hm : goodFrame m) :
    deserialize m.serialize = .ok m := by
  obtain ⟨ht, hp, hlen⟩ := hm
  rw [serialize_shape m]
  have hu : u32 m.payload.length = m.payload.length := Nat.mod_eq_of_lt hlen
  rw [hu]
  unfold deserialize
  have hne : ¬ m.payload.length = 0 := by omega
  simp only [hne, if_false]
  rw [be32bytes_reconstruct, Nat.mod_eq_of_lt hlen]
  simp [List.take_length, Nat.mod_eq_of_lt ht]

theorem tryDeserialize_serialize (m : Message) (hm : goodFrame m) (rest : List Nat) :
    tryDeserialize (m.serialize ++ rest) = (.ok m, rest) := by
  obtain ⟨ht, hp, hlen⟩ := hm
  have hu : u32 m.payload.length = m.payload.length := Nat.mod_eq_of_lt hlen
  have hshape : m.serialize ++ rest = (m.type % 256) :: (u32 m.payload.length) / 16777216 % 256 ::
      (u32 m.payload.length) / 65536 % 256 :: (u32 m.payload.length) / 256 % 256 ::
      (u32 m.payload.length) % 256 :: (m.payload ++ rest) := by
    rw [serialize_shape m]; simp
  rw [hu] at hshape
  unfold tryDeserialize
  rw [hshape]
  have hlen5 : ((m.type % 256) :: m.payload.length / 16777216 % 256 ::
      m.payload.length / 65536 % 256 :: m.payload.length / 256 % 256 ::
      m.payload.length % 256 :: (m.payload ++ rest)).length =
      5 + m.payload.length + rest.length := by
    simp; omega
  have hnot : ¬ (5 + m.payload.length + rest.length < 5) := by omega
  simp only [List.getD_cons_succ, List.getD_cons_zero, hlen5, hnot, if_false,
    be32bytes_reconstruct, Nat.mod_eq_of_lt hlen]
  have hnot2 : ¬ (5 + m.payload.length + rest.length < 5 + m.payload.length) := by omega
  simp only [hnot2, if_false]
  have htake : ((m.type % 256) :: m.payload.length / 16777216 % 256 ::
      m.payload.length / 65536 % 256 :: m.payload.length / 256 % 256 ::
      m.payload.length % 256 :: (m.payload ++ rest)).take (5 + m.payload.length) =
      m.serialize := by
    have : (5 + m.payload.length) = m.serialize.length := by rw [serialize_length]
    rw [this, ← hshape]
    · exact List.take_left _ _
  have hdrop : ((m.type % 256) :: m.payload.length / 16777216 % 256 ::
      m.payload.length / 65536 % 256 :: m.payload.length / 256 % 256 ::
      m.payload.length % 256 :: (m.payload ++ rest)).drop (5 + m.payload.length) = rest := by
    have : (5 + m.payload.length) = m.serialize.length := by rw [serialize_length]
    rw [this, ← hshape]
    · exact List.drop_left _ _
  rw [htake, hdrop, deserialize_serialize m ⟨ht, hp, hlen⟩]

/-! ## C9 — frame round-trip -/

/-- C9 (amended): for every byte-sized tag and every NON-EMPTY payload of at
most the configured ceiling (2^32 − 1 bytes, the client's MaxPayloadSize),
decoding the encoding returns the tag and payload, and the reassembly buffer
consumes exactly 5 + |p| bytes (whatever bytes follow the frame are exactly
what remains).  The original claim admits the empty payload, on which the
decoder fails — see the counterexample. -/
theorem frame_roundtrip (t : Nat) (p : List Nat) (ht : t < 256)
    (hp : 0 < p.length) (hceil : p.length ≤ 4294967295) :
    (Message.serialize ⟨t, p⟩).length = 5 + p.length ∧
    deserialize (Message.serialize ⟨t, p⟩) = .ok ⟨t, p⟩ ∧
    ∀ rest, tryDeserialize (Message.serialize ⟨t, p⟩ ++ rest) = (.ok ⟨t, p⟩, rest) := by
  have hg : goodFrame ⟨t, p⟩ := ⟨ht, hp, by simpa using Nat.lt_succ_of_le hceil⟩
  exact ⟨serialize_length _, deserialize_serialize _ hg,
    fun rest => tryDeserialize_serialize _ hg rest⟩

/-- Witness for C9 at tag 2, payload [97], trailing byte [9]. -/
theorem frame_roundtrip_witness :
    deserialize (Message.serialize ⟨2, [97]⟩) = .ok ⟨2, [97]⟩ ∧
    tryDeserialize (Message.serialize ⟨2, [97]⟩ ++ [9]) = (.ok ⟨2, [97]⟩, [9]) :=
  ⟨(frame_roundtrip 2 [97] (by decide) (by decide) (by decide)).2.1,
   (frame_roundtrip 2 [97] (by decide) (by decide) (by decide)).2.2 [9]⟩

/-- Counterexample to C9 as stated: the empty payload satisfies
|p| ≤ ceiling, but `Deserialize(Serialize(t, []))` returns the io.EOF error
(`bytes.Reader.Read` reports EOF whenever the reader is exhausted, even for a
zero-length destination), not the frame `(t, [])`. -/
theorem frame_roundtrip_empty_payload_cex :
    deserialize (Message.serialize ⟨1, []⟩) = .error .eofErr ∧
    deserialize (Message.serialize ⟨1, []⟩) ≠ .ok ⟨1, []⟩ := by
  refine ⟨rfl, fun h => ?_⟩
  have h2 : (Except.error MsgErr.eofErr : Except MsgErr Message) = Except.ok ⟨1, []⟩ := by
    calc (Except.error MsgErr.eofErr : Except MsgErr Message)
        = deserialize (Message.serialize ⟨1, []⟩) := rfl
      _ = Except.ok ⟨1, []⟩ := h
  exact Except.noConfusion h2

/-! ## C8 — truncated payload handling in the payload decoders -/

/-- C8 (amended): the payload decoders never panic, but they also do not emit
a distinct "truncated payload" error when the declared length exceeds the
available bytes.  When no byte at all follows the 3-byte header they fail
with the io.EOF error of `bytes.Reader.Read`; when at least one byte follows,
they SUCCEED, returning the available bytes zero-padded to the declared
length as the filename / message and an empty trailing-data field. -/
theorem decoder_truncated (c l1 l2 s : Nat) (rest : List Nat)
    (htrunc : rest.length < be16val l1 l2) :
    (rest = [] →
      deserializeCommand (c :: l1 :: l2 :: rest) = .error .eofErr ∧
      deserializeResponse (s :: l1 :: l2 :: rest) = .error .eofErr) ∧
    (rest ≠ [] →
      deserializeCommand (c :: l1 :: l2 :: rest) =
        .ok ⟨c, rest ++ List.replicate (be16val l1 l2 - rest.length) 0, []⟩ ∧
      deserializeResponse (s :: l1 :: l2 :: rest) =
        .ok ⟨decide (s = 1), rest ++ List.replicate (be16val l1 l2 - rest.length) 0, []⟩) := by
  constructor
  · intro h
    subst h
    exact ⟨rfl, rfl⟩
  · intro h
    have hlen : ¬ rest.length = 0 := by
      simpa [List.length_eq_zero] using h
    have htk : rest.take (be16val l1 l2) = rest :=
      List.take_of_length_le (Nat.le_of_lt htrunc)
    have hdp : rest.drop (be16val l1 l2) = [] :=
      List.drop_eq_nil_of_le (Nat.le_of_lt htrunc)
    constructor
    · unfold deserializeCommand
      simp only [hlen, if_false, htk, hdp]
    · unfold deserializeResponse
      simp only [hlen, if_false, htk, hdp]

/-- Witness for C8 (amended) at a truncated command and a header-only
response. -/
theorem decoder_truncated_witness :
    deserializeCommand [1, 0, 5, 97, 98] = .ok ⟨1, [97, 98, 0, 0, 0], []⟩ ∧
    deserializeResponse [1, 0, 5] = .error .eofErr :=
  ⟨((decoder_truncated 1 0 5 1 [97, 98] (by decide)).2 (by decide)).1,
   ((decoder_truncated 1 0 5 1 [] (by decide)).1 rfl).2⟩

/-- Counterexample to C8 as stated: input `[1, 0, 5, 97, 98]` declares a
filename length of 5 with only 2 bytes available, yet `DeserializeCommand`
returns a value (filename "ab" zero-padded to 5 bytes) instead of failing
with a truncated-payload error; the response decoder behaves the same way. -/
theorem decoder_truncated_cex :
    deserializeCommand [1, 0, 5, 97, 98] = .ok ⟨1, [97, 98, 0, 0, 0], []⟩ ∧
    deserializeResponse [1, 0, 5, 97, 98] = .ok ⟨true, [97, 98, 0, 0, 0], []⟩ :=
  ⟨rfl, rfl⟩

/-! ## C6 — handshake confirmation frame -/

/-- C6 (amended): on a successful handshake the server replies with exactly
one CLEARTEXT frame of type Response (0x04) whose payload is the raw UTF-8
bytes of "handshake complete" — NOT a payload in the Response layout (success
flag + 2-byte length + message); decoding it with the Response decoder yields
a failure flag.  The handler ends in the Authenticated state holding the
transported key. -/
theorem handshake_response_frame (rsaD : List Nat → List Nat) (st : ConnSt)
    (p : List Nat) :
    handleHandshake rsaD st p =
      (⟨ConnPhase.phaseAuthenticated, some (rsaD p)⟩,
        [SentFrame.plainFrame ⟨4, handshakeCompleteBytes⟩]) ∧
    handshakeCompleteBytes = asciiBytes "handshake complete" :=
  ⟨rfl, rfl⟩

/-- Counterexample to C6 as stated: the payload of the handshake confirmation
is the 18 raw bytes of "handshake complete"; decoded per the Response payload
layout its success flag is byte 0x68 ('h'), i.e. failure, and it is not the
`SerializeResponse` encoding of a success Response with that message (the
encodings differ). -/
theorem handshake_response_layout_cex :
    (deserializeResponse handshakeCompleteBytes).map ResponseMessage.success =
      .ok false ∧
    serializeResponse true handshakeCompleteBytes [] ≠ handshakeCompleteBytes := by
  exact ⟨rfl, by decide⟩

/-! ## C5 — handshake frames in the Authenticated state -/

/-- C5 (amended): `handleMessage` dispatches every Handshake frame to
`handleHandshake` without consulting the connection state.  In the
Authenticated state an inbound Handshake frame is therefore NOT treated as a
protocol violation: the connection stays open, the handler replies
"handshake complete" again, and the session key is REPLACED by the decryption
of the new payload — the key is not immutable. -/
theorem handshake_in_authenticated_rekeys (rsaD : List Nat → List Nat)
    (aesD : List Nat → List Nat → Option (List Nat))
    (runCmd : CommandMessage → List SentFrame × Bool)
    (st : ConnSt) (p : List Nat)
    (_hauth : st.phase = ConnPhase.phaseAuthenticated) :
    handleMessage rsaD aesD runCmd st ⟨1, p⟩ =
      (⟨ConnPhase.phaseAuthenticated, some (rsaD p)⟩,
        [SentFrame.plainFrame ⟨4, handshakeCompleteBytes⟩], false) ∧
    phaseAfterMessage rsaD aesD runCmd st ⟨1, p⟩ = ConnPhase.phaseAuthenticated :=
  ⟨rfl, rfl⟩

/-- Witness for C5 (amended): authenticated connection with key [1] receiving
a Handshake frame with payload [2] (identity RSA decryption). -/
theorem handshake_in_authenticated_rekeys_witness :
    handleMessage id (fun _ _ => none) (fun _ => ([], false))
        ⟨ConnPhase.phaseAuthenticated, some [1]⟩ ⟨1, [2]⟩ =
      (⟨ConnPhase.phaseAuthenticated, some [2]⟩,
        [SentFrame.plainFrame ⟨4, handshakeCompleteBytes⟩], false) ∧
    phaseAfterMessage id (fun _ _ => none) (fun _ => ([], false))
        ⟨ConnPhase.phaseAuthenticated, some [1]⟩ ⟨1, [2]⟩ =
      ConnPhase.phaseAuthenticated :=
  handshake_in_authenticated_rekeys id (fun _ _ => none) (fun _ => ([], false))
    ⟨ConnPhase.phaseAuthenticated, some [1]⟩ [2] rfl

/-- Counterexample to C5 as stated: a connection Authenticated with session
key [1] receives a Handshake frame whose payload decrypts to [2]; afterwards
the stored key is [2] ≠ [1] and the connection is not closed. -/
theorem session_key_immutable_cex :
    (handleMessage id (fun _ _ => none) (fun _ => ([], false))
        ⟨ConnPhase.phaseAuthenticated, some [1]⟩ ⟨1, [2]⟩).1.aesKey = some [2] ∧
    (some [2] : Option (List Nat)) ≠ some [1] ∧
    phaseAfterMessage id (fun _ _ => none) (fun _ => ([], false))
        ⟨ConnPhase.phaseAuthenticated, some [1]⟩ ⟨1, [2]⟩ ≠ ConnPhase.phaseClosed :=
  ⟨rfl, by decide, by decide⟩

/-! ## C10 — nil/empty session key resolves to the shared root -/

/-- C10 (confirmed): with a nil or empty AES key, `getClientDir` returns the
configured root directory itself and creates no per-session directory;
consequently path validation is independent of the client-id derivation, and
every path it accepts lies in the shared root namespace (it extends the
cleaned root or equals it). -/
theorem empty_key_shared_root (clientId : List Nat → List Char)
    (rootDir : List Char) (aesKey : Option (List Nat))
    (hkey : aesKey = none ∨ aesKey = some []) :
    getClientDir clientId rootDir aesKey = (rootDir, false) ∧
    (∀ f, validatePath clientId rootDir aesKey f =
      validatePath (fun _ => []) rootDir none f) ∧
    (∀ f p, validatePath clientId rootDir aesKey f = .ok p →
      listStarts (clean rootDir ++ ['/']) p = true ∨ p = clean rootDir) := by
  have hdir : getClientDir clientId rootDir aesKey = (rootDir, false) := by
    rcases hkey with h | h <;> subst h <;> rfl
  refine ⟨hdir, ?_, ?_⟩
  · intro f
    unfold validatePath
    rw [hdir]
    rfl
  · intro f p hok
    unfold validatePath at hok
    by_cases h1 : f.isEmpty
    · simp [h1] at hok
    · by_cases h2 : isAbsPath f
      · simp [h1, h2] at hok
      · rw [hdir] at hok
        simp only [h1, h2, if_false, Bool.false_eq_true] at hok
        by_cases h3 : (listStarts (clean rootDir ++ ['/'])
            (clean (clean (goJoin (clean rootDir) f))) ||
              decide (clean (clean (goJoin (clean rootDir) f)) = clean rootDir)) = true
        · rw [if_pos h3] at hok
          cases hok
          rcases Bool.or_eq_true_iff.mp h3 with h4 | h4
          · exact Or.inl h4
          · exact Or.inr (of_decide_eq_true h4)
        · rw [if_neg h3] at hok
          cases hok

/-- Witness for C10: empty key, root "/data", filename "a". -/
theorem empty_key_shared_root_witness :
    getClientDir (fun _ => ['x']) "/data".data (some []) = ("/data".data, false) ∧
    validatePath (fun _ => ['x']) "/data".data (some []) "a".data =
      validatePath (fun _ => []) "/data".data none "a".data :=
  ⟨(empty_key_shared_root (fun _ => ['x']) "/data".data (some []) (Or.inr rfl)).1,
   (empty_key_shared_root (fun _ => ['x']) "/data".data (some []) (Or.inr rfl)).2.1 "a".data⟩

/-! ## C2 — path safety -/

theorem validatePath_err_of_cond (clientId : List Nat → List Char)
    (rootDir : List Char) (aesKey : Option (List Nat)) (f : List Char)
    (h : f.isEmpty = true ∨ isAbsPath f = true ∨
      inRootResolved clientId rootDir aesKey f = false) :
    ∃ e, validatePath clientId rootDir aesKey f = .error e := by
  unfold validatePath
  by_cases h1 : f.isEmpty
  · exact ⟨PathErr.emptyFilename, by simp [h1]⟩
  · by_cases h2 : isAbsPath f
    · exact ⟨PathErr.absolutePath, by simp [h1, h2]⟩
    · have h3 : inRootResolved clientId rootDir aesKey f = false := by
        rcases h with h | h | h
        · exact absurd h h1
        · exact absurd h h2
        · exact h
      refine ⟨PathErr.traversal, ?_⟩
      simp only [h1, h2, Bool.false_eq_true, if_false]
      unfold inRootResolved at h3
      simp only [h3, Bool.false_eq_true, if_false]

/-- C2 (amended): for any filename that is empty, or absolute (leading '/'),
or whose lexical resolution (join with the session root, then clean) does not
stay within the session root, each executor operation — upload, download,
delete — sends exactly one failure Response "Invalid filename", performs no
file write and no removal, and emits no Data frame.  (The original claim's
"contains the substring .." condition is refuted separately: such a filename
can still resolve inside the root and is then accepted.) -/
theorem path_safety (clientId : List Nat → List Char) (rootDir : List Char)
    (aesKey : Option (List Nat)) (fs : FileSys) (f : List Char)
    (data : List Nat) (writeOk : Bool)
    (h : f.isEmpty = true ∨ isAbsPath f = true ∨
      inRootResolved clientId rootDir aesKey f = false) :
    handleUpload clientId rootDir aesKey writeOk f data =
      ⟨[⟨false, "Invalid filename".data⟩], [], [], [], true⟩ ∧
    handleDownload clientId rootDir aesKey fs f =
      some ⟨[⟨false, "Invalid filename".data⟩], [], [], [], true⟩ ∧
    handleDelete clientId rootDir aesKey fs f =
      ⟨[⟨false, "Invalid filename".data⟩], [], [], [], true⟩ := by
  obtain ⟨e, he⟩ := validatePath_err_of_cond clientId rootDir aesKey f h
  refine ⟨?_, ?_, ?_⟩
  · unfold handleUpload
    rw [he]
  · unfold handleDownload
    rw [he]
  · unfold handleDelete
    rw [he]

/-- Witness for C2 (amended): filename ".." under root "/data" with an empty
session key. -/
theorem path_safety_witness :
    handleUpload (fun _ => []) "/data".data none true "..".data [7] =
      ⟨[⟨false, "Invalid filename".data⟩], [], [], [], true⟩ ∧
    handleDelete (fun _ => []) "/data".data none [] "..".data =
      ⟨[⟨false, "Invalid filename".data⟩], [], [], [], true⟩ :=
  ⟨(path_safety (fun _ => []) "/data".data none [] "..".data [7] true
      (Or.inr (Or.inr (by decide)))).1,
   (path_safety (fun _ => []) "/data".data none [] "..".data [7] true
      (Or.inr (Or.inr (by decide)))).2.2⟩

/-- Counterexample to C2 as stated: the filename "a..b" contains the
substring "..", yet upload under root "/data" succeeds — the executor sends a
SUCCESS Response and writes the file /data/a..b (a filesystem mutation), so
the claim's "any filename containing .." premise is too strong. -/
theorem path_safety_substring_cex :
    listHasSub ['.', '.'] "a..b".data = true ∧
    handleUpload (fun _ => []) "/data".data none true "a..b".data [5] =
      ⟨[⟨true, "File uploaded successfully".data⟩], [],
        [("/data/a..b".data, [5])], [], false⟩ :=
  ⟨by decide, rfl⟩

/-! ## C3 — which application failures keep the connection open -/

/-- C3 (amended): every command-level failure is answered with a single
failure Response, but the connection does NOT always stay open.  Download and
delete of a missing file send the failure Response and return nil, keeping
the connection open; an invalid filename (upload or delete), a write failure,
or a directory-read failure sends the failure Response and then RETURNS the
error, which makes `HandleRawRequest` close the connection.  In particular an
upload of "../etc/passwd" gets the failure Response "Invalid filename" and
the connection is then closed, not kept open. -/
theorem app_failure_connection (clientId : List Nat → List Char)
    (rootDir : List Char) (aesKey : Option (List Nat)) (fs : FileSys)
    (f : List Char) (data : List Nat) :
    (∀ e, validatePath clientId rootDir aesKey f = .error e →
      (handleUpload clientId rootDir aesKey true f data).responses =
        [⟨false, "Invalid filename".data⟩] ∧
      connClosedAfterExec (handleUpload clientId rootDir aesKey true f data) = true ∧
      (handleDelete clientId rootDir aesKey fs f).responses =
        [⟨false, "Invalid filename".data⟩] ∧
      connClosedAfterExec (handleDelete clientId rootDir aesKey fs f) = true) ∧
    (∀ p, validatePath clientId rootDir aesKey f = .ok p → fsRead fs p = none →
      handleDownload clientId rootDir aesKey fs f =
        some ⟨[⟨false, "File not found or failed to read".data⟩], [], [], [], false⟩ ∧
      handleDelete clientId rootDir aesKey fs f =
        ⟨[⟨false, "File not found".data⟩], [], [], [], false⟩) ∧
    (∀ p, validatePath clientId rootDir aesKey f = .ok p →
      (handleUpload clientId rootDir aesKey false f data).responses =
        [⟨false, "Failed to write file".data⟩] ∧
      connClosedAfterExec (handleUpload clientId rootDir aesKey false f data) = true) ∧
    handleList none = ⟨[⟨false, "Failed to read directory".data⟩], [], [], [], true⟩ := by
  refine ⟨?_, ?_, ?_, rfl⟩
  · intro e he
    unfold handleUpload handleDelete connClosedAfterExec
    rw [he]
    exact ⟨rfl, rfl, rfl, rfl⟩
  · intro p hp hread
    unfold handleDownload handleDelete
    rw [hp]
    dsimp only
    rw [hread]
    exact ⟨rfl, rfl⟩
  · intro p hp
    unfold handleUpload connClosedAfterExec
    rw [hp]
    exact ⟨rfl, rfl⟩

/-- Witness for C3 (amended): invalid-filename upload closes, missing-file
download stays open (root "/data", empty filesystem). -/
theorem app_failure_connection_witness :
    connClosedAfterExec (handleUpload (fun _ => []) "/data".data none true
      "../etc/passwd".data [5]) = true ∧
    handleDownload (fun _ => []) "/data".data none [] "a".data =
      some ⟨[⟨false, "File not found or failed to read".data⟩], [], [], [], false⟩ :=
  ⟨((app_failure_connection (fun _ => []) "/data".data none [] "../etc/passwd".data
      [5]).1 PathErr.traversal rfl).2.1,
   ((app_failure_connection (fun _ => []) "/data".data none [] "a".data
      [5]).2.1 "/data/a".data rfl rfl).1⟩

/-- Counterexample to C3 as stated: an upload with filename "../etc/passwd"
does produce the single failure Response "Invalid filename", but the handler
returns a non-nil error, so `HandleRawRequest` closes the connection — it
does not remain open for subsequent commands. -/
theorem app_failure_keeps_open_cex :
    handleUpload (fun _ => []) "/data".data none true "../etc/passwd".data [5] =
      ⟨[⟨false, "Invalid filename".data⟩], [], [], [], true⟩ ∧
    connClosedAfterExec (handleUpload (fun _ => []) "/data".data none true
      "../etc/passwd".data [5]) = true :=
  ⟨rfl, rfl⟩

/-! ## C7 — client-side chunk metadata handling -/

theorem receiveChunksLoop_data (fn : List Char) :
    ∀ (rest : List ChunkDataMessage) (acc : List ChunkDataMessage)
      (ts tc : Nat) (w : List Nat),
      (∀ c ∈ rest, c.filename = fn) → acc ≠ [] →
      acc.length < tc → tc ≤ acc.length + rest.length →
      receiveChunksLoop fn (rest.map InMsg.dataMsg) acc ts tc w =
        .ok (acc ++ rest.take (tc - acc.length), ts, tc,
          w ++ ((rest.take (tc - acc.length)).map ChunkDataMessage.data).flatten) := by
  intro rest
  induction rest with
  | nil =>
    intro acc ts tc w _ _ hlt hle
    simp only [List.length_nil, Nat.add_zero] at hle
    exact absurd (Nat.lt_of_lt_of_le hlt hle) (Nat.lt_irrefl _)
  | cons c rest2 ih =>
    intro acc ts tc w hfn hne hlt hle
    have hcfn : ¬ (c.filename ≠ fn) := by
      have := hfn c (List.mem_cons_self c rest2)
      simp [this]
    have haccE : acc.isEmpty = false := by
      cases acc with
      | nil => exact absurd rfl hne
      | cons a as => rfl
    simp only [List.map_cons, receiveChunksLoop, hcfn, if_false, haccE, Bool.false_eq_true,
      if_false, List.length_append, List.length_cons, List.length_nil]
    by_cases hstop : tc ≤ acc.length + 1
    · have htc1 : tc = acc.length + 1 := by omega
      rw [if_pos (by omega : tc ≤ acc.length + 1)]
      have hsub : tc - acc.length = 1 := by omega
      rw [hsub]
      simp
    · rw [if_neg (by omega : ¬ tc ≤ acc.length + 1)]
      have hfn2 : ∀ d ∈ rest2, d.filename = fn := by
        intro d hd; exact hfn d (List.mem_cons_of_mem c hd)
      have hrec := ih (acc ++ [c]) ts tc (w ++ c.data) hfn2 (by simp)
        (by simp; omega) (by simp at hle ⊢; omega)
      rw [hrec]
      have hk : tc - acc.length = (tc - (acc ++ [c]).length) + 1 := by
        simp; omega
      rw [hk, List.take_cons (by omega : 0 < tc - (acc ++ [c]).length + 1)]
      simp

/-- C7 (amended): the client captures `total_chunks` and `total_size` from
chunk 0 and IGNORES those fields on every subsequent chunk (no mismatch check
exists); it verifies each chunk's filename, stops as soon as the number of
received chunks reaches the captured `total_chunks`, and reports success
exactly when the output size equals the captured `total_size` (otherwise it
surfaces a size-mismatch error). -/
theorem download_metadata_capture (fn : List Char) (c0 : ChunkDataMessage)
    (cs : List ChunkDataMessage)
    (hfn : ∀ c ∈ c0 :: cs, c.filename = fn)
    (htc : 0 < c0.totalChunks) (hle : c0.totalChunks ≤ (c0 :: cs).length) :
    receiveFileChunks fn ((c0 :: cs).map InMsg.dataMsg) =
      (if ((((c0 :: cs).take c0.totalChunks).map ChunkDataMessage.data).flatten).length
          = c0.totalSize
       then .ok ((((c0 :: cs).take c0.totalChunks).map ChunkDataMessage.data).flatten)
       else .error .sizeMismatch) := by
  have hcfn : ¬ (c0.filename ≠ fn) := by
    have := hfn c0 (List.mem_cons_self c0 cs)
    simp [this]
  unfold receiveFileChunks
  simp only [List.map_cons, receiveChunksLoop, hcfn, if_false, List.isEmpty_nil,
    List.nil_append, List.length_cons, List.length_nil, if_true]
  by_cases hstop : c0.totalChunks ≤ 0 + 1
  · have htc1 : c0.totalChunks = 1 := by omega
    rw [if_pos hstop]
    dsimp only
    have htake : (c0 :: cs).take c0.totalChunks = [c0] := by rw [htc1]; rfl
    rw [htake]
    simp only [List.map_cons, List.map_nil, List.flatten_cons, List.flatten_nil,
      List.append_nil, List.length_singleton]
    rw [htc1]
    by_cases hsz : c0.data.length = c0.totalSize
    · simp [hsz]
    · simp [hsz]
  · rw [if_neg hstop]
    have hfn2 : ∀ d ∈ cs, d.filename = fn := fun d hd => hfn d (List.mem_cons_of_mem c0 hd)
    have hlt : ([c0] : List ChunkDataMessage).length < c0.totalChunks := by
      simp; omega
    have hle2 : c0.totalChunks ≤ ([c0] : List ChunkDataMessage).length + cs.length := by
      simp at hle ⊢; omega
    rw [receiveChunksLoop_data fn cs [c0] c0.totalSize c0.totalChunks
      c0.data hfn2 (by simp) hlt hle2]
    dsimp only
    simp only [List.length_singleton]
    have hlen : (([c0] : List ChunkDataMessage) ++ cs.take (c0.totalChunks - 1)).length
        = c0.totalChunks := by
      simp only [List.length_append, List.length_singleton, List.length_take]
      simp at hle
      omega
    have hnotinc : ¬ ((([c0] : List ChunkDataMessage) ++
        cs.take (c0.totalChunks - 1)).length ≠ c0.totalChunks) := by
      rw [hlen]; exact fun h => h rfl
    rw [if_neg hnotinc]
    have htake : (c0 :: cs).take c0.totalChunks = c0 :: cs.take (c0.totalChunks - 1) :=
      List.take_cons htc
    rw [htake]
    simp only [List.map_cons, List.flatten_cons]
    by_cases hsz : (c0.data ++
        ((cs.take (c0.totalChunks - 1)).map ChunkDataMessage.data).flatten).length
        = c0.totalSize
    · have h1 : ¬ ((c0.data ++
          ((cs.take (c0.totalChunks - 1)).map ChunkDataMessage.data).flatten).length
          ≠ c0.totalSize) := fun h => h hsz
      rw [if_neg h1, if_pos hsz]
    · rw [if_pos hsz, if_neg hsz]

/-- Witness for C7 (amended): two matching chunks, totals (2, 2) taken from
chunk 0, download succeeds returning the concatenated bytes. -/
theorem download_metadata_capture_witness :
    receiveFileChunks ['f']
      ([⟨['f'], 0, 2, 1, 2, [7]⟩, ⟨['f'], 1, 2, 1, 2, [8]⟩].map InMsg.dataMsg) =
      .ok [7, 8] :=
  download_metadata_capture ['f'] ⟨['f'], 0, 2, 1, 2, [7]⟩ [⟨['f'], 1, 2, 1, 2, [8]⟩]
    (by decide) (by decide) (by decide)

/-- Counterexample to C7 as stated: chunk 1 declares `total_chunks = 99` and
`total_size = 999`, both different from the values captured from chunk 0
(2 and 2), yet the client accepts it and reports success — no mismatch error
is surfaced. -/
theorem download_metadata_validation_cex :
    receiveFileChunks ['f']
      [InMsg.dataMsg ⟨['f'], 0, 2, 1, 2, [7]⟩, InMsg.dataMsg ⟨['f'], 1, 99, 1, 999, [8]⟩] =
      .ok [7, 8] ∧
    (99 ≠ 2 ∧ 999 ≠ 2) :=
  ⟨rfl, by decide, by decide⟩

/-! ## C4 — stream reassembly -/

theorem tryDeserialize_stall (buf : List Nat) (h : isIncomplete buf = true) :
    tryDeserialize buf = (.error (stallErr buf), buf) := by
  unfold tryDeserialize stallErr
  unfold isIncomplete at h
  by_cases h5 : buf.length < 5
  · rw [if_pos h5, if_pos h5]
  · have h2 : buf.length < 5 +
        be32val (buf.getD 1 0) (buf.getD 2 0) (buf.getD 3 0) (buf.getD 4 0) := by
      rcases Bool.or_eq_true_iff.mp h with h' | h'
      · exact absurd (of_decide_eq_true h') h5
      · exact of_decide_eq_true h'
    rw [if_neg h5, if_neg h5]
    dsimp only
    rw [if_pos h2]

theorem tryDeserialize_err (buf : List Nat) (e : MsgErr) (b : List Nat)
    (h : tryDeserialize buf = (.error e, b)) : b = buf := by
  unfold tryDeserialize at h
  by_cases h5 : buf.length < 5
  · rw [if_pos h5] at h
    injection h with h1 h2
    exact h2.symm
  · rw [if_neg h5] at h
    dsimp only at h
    by_cases h2 : buf.length < 5 +
        be32val (buf.getD 1 0) (buf.getD 2 0) (buf.getD 3 0) (buf.getD 4 0)
    · rw [if_pos h2] at h
      injection h with h1 h2
      exact h2.symm
    · rw [if_neg h2] at h
      cases hd : deserialize (buf.take (5 +
          be32val (buf.getD 1 0) (buf.getD 2 0) (buf.getD 3 0) (buf.getD 4 0))) with
      | error e2 =>
        rw [hd] at h
        injection h with h1 h2
        exact h2.symm
      | ok m =>
        rw [hd] at h
        injection h with h1 h2
        exact Except.noConfusion h1

theorem drainLoop_stream (fs : List Message) (hgood : ∀ f ∈ fs, goodFrame f)
    (r : List Nat) (hr : isIncomplete r = true) :
    ∀ fuel, ((fs.map Message.serialize).flatten ++ r).length ≤ fuel →
    drainLoop fuel ((fs.map Message.serialize).flatten ++ r) = (fs, r, stallErr r) := by
  induction fs with
  | nil =>
    intro fuel hf
    simp only [List.map_nil, List.flatten_nil, List.nil_append] at hf ⊢
    cases fuel with
    | zero =>
      have hr0 : r = [] := List.length_eq_zero.mp (Nat.le_zero.mp hf)
      subst hr0
      rfl
    | succ k =>
      simp only [drainLoop, tryDeserialize_stall r hr]
  | cons f fs2 ih =>
    intro fuel hf
    have hgf : goodFrame f := hgood f (List.mem_cons_self f fs2)
    have hgood2 : ∀ g ∈ fs2, goodFrame g := fun g hg => hgood g (List.mem_cons_of_mem f hg)
    have hbuf : (((f :: fs2).map Message.serialize).flatten ++ r) =
        f.serialize ++ ((fs2.map Message.serialize).flatten ++ r) := by
      simp
    rw [hbuf] at hf ⊢
    have hserlen : f.serialize.length = 5 + f.payload.length := serialize_length f
    cases fuel with
    | zero =>
      exfalso
      rw [List.length_append, hserlen] at hf
      omega
    | succ k =>
      simp only [drainLoop, tryDeserialize_serialize f hgf]
      have hle2 : ((fs2.map Message.serialize).flatten ++ r).length ≤ k := by
        rw [List.length_append, hserlen] at hf
        omega
      rw [ih hgood2 k hle2]

theorem prefix_decomp (fs : List Message) (hgood : ∀ f ∈ fs, goodFrame f) :
    ∀ (P t : List Nat), P ++ t = (fs.map Message.serialize).flatten →
    ∃ gs hs r s, fs = gs ++ hs ∧ P = (gs.map Message.serialize).flatten ++ r ∧
      isIncomplete r = true ∧ (hs.map Message.serialize).flatten = r ++ s := by
  induction fs with
  | nil =>
    intro P t h
    simp only [List.map_nil, List.flatten_nil] at h
    have hP : P = [] := (List.append_eq_nil.mp h).1
    exact ⟨[], [], [], [], rfl, by simp [hP], rfl, by simp⟩
  | cons f fs2 ih =>
    intro P t h
    have hgf : goodFrame f := hgood f (List.mem_cons_self f fs2)
    have hgood2 : ∀ g ∈ fs2, goodFrame g := fun g hg => hgood g (List.mem_cons_of_mem f hg)
    have hflat : ((f :: fs2).map Message.serialize).flatten =
        f.serialize ++ (fs2.map Message.serialize).flatten := by simp
    rw [hflat] at h
    by_cases hlen : f.serialize.length ≤ P.length
    · have hdec : ∃ P2, P = f.serialize ++ P2 ∧
          P2 ++ t = (fs2.map Message.serialize).flatten := by
        rcases List.append_eq_append_iff.mp h with ⟨a2, hc, hb⟩ | ⟨c2, hP2, hX⟩
        · have ha2 : a2 = [] := by
            have hlc := congrArg List.length hc
            rw [List.length_append] at hlc
            have := List.length_eq_zero.mp (by omega : a2.length = 0)
            exact this
          subst ha2
          refine ⟨[], by simpa using hc.symm, ?_⟩
          simpa using hb
        · exact ⟨c2, hP2, hX.symm⟩
      obtain ⟨P2, hP2, ht2⟩ := hdec
      obtain ⟨gs, hs, r, s, hsplit, hPdec, hinc, hrs⟩ := ih hgood2 P2 t ht2
      refine ⟨f :: gs, hs, r, s, by rw [hsplit, List.cons_append], ?_, hinc, hrs⟩
      rw [hP2, hPdec]
      simp
    · refine ⟨[], f :: fs2, P, t, rfl, by simp, ?_, by rw [hflat]; exact h.symm⟩
      push_neg at hlen
      rw [serialize_length f] at hlen
      by_cases h5 : P.length < 5
      · unfold isIncomplete
        simp [h5]
      · have hbytes : ∀ i, i < 5 → P.getD i 0 = f.serialize.getD i 0 := by
          intro i hi
          have h1 : P.getD i 0 = (P ++ t).getD i 0 :=
            (List.getD_append P t 0 i (by omega)).symm
          have h2 : (f.serialize ++ (fs2.map Message.serialize).flatten).getD i 0 =
              f.serialize.getD i 0 :=
            List.getD_append _ _ 0 i (by rw [serialize_length f]; omega)
          rw [h1, h, h2]
        have hval : be32val (P.getD 1 0) (P.getD 2 0) (P.getD 3 0) (P.getD 4 0) =
            f.payload.length := by
          rw [hbytes 1 (by omega), hbytes 2 (by omega), hbytes 3 (by omega),
            hbytes 4 (by omega)]
          rw [serialize_shape f]
          simp only [List.getD_cons_succ, List.getD_cons_zero]
          rw [be32bytes_reconstruct]
          have hlt := hgf.2.2
          unfold u32
          omega
        unfold isIncomplete
        rw [hval]
        have : P.length < 5 + f.payload.length := by omega
        simp [this]

theorem feedLoop_stream :
    ∀ (frags : List (List Nat)) (fs : List Message) (r : List Nat),
      (∀ f ∈ fs, goodFrame f) → isIncomplete r = true →
      r ++ frags.flatten = (fs.map Message.serialize).flatten →
      feedLoop r frags = (fs, []) := by
  intro frags
  induction frags with
  | nil =>
    intro fs r hgood hinc heq
    simp only [List.flatten_nil, List.append_nil] at heq
    cases fs with
    | nil =>
      simp only [List.map_nil, List.flatten_nil] at heq
      subst heq
      rfl
    | cons g gs =>
      exfalso
      have hgg : goodFrame g := hgood g (List.mem_cons_self g gs)
      have hflat : ((g :: gs).map Message.serialize).flatten =
          g.serialize ++ (gs.map Message.serialize).flatten := by simp
      rw [hflat] at heq
      have hlen : g.serialize.length ≤ r.length := by
        have := congrArg List.length heq
        rw [List.length_append] at this
        omega
      rw [serialize_length g] at hlen
      have h5 : ¬ r.length < 5 := by omega
      have hbytes : ∀ i, i < 5 → r.getD i 0 = g.serialize.getD i 0 := by
        intro i hi
        rw [heq]
        exact List.getD_append _ _ 0 i (by rw [serialize_length g]; omega)
      have hval : be32val (r.getD 1 0) (r.getD 2 0) (r.getD 3 0) (r.getD 4 0) =
          g.payload.length := by
        rw [hbytes 1 (by omega), hbytes 2 (by omega), hbytes 3 (by omega),
          hbytes 4 (by omega)]
        rw [serialize_shape g]
        simp only [List.getD_cons_succ, List.getD_cons_zero]
        rw [be32bytes_reconstruct]
        have hlt := hgg.2.2
        unfold u32
        omega
      unfold isIncomplete at hinc
      rw [hval] at hinc
      have hnot : ¬ r.length < 5 + g.payload.length := by omega
      simp [h5, hnot] at hinc
  | cons frag frags2 ih =>
    intro fs r hgood hinc heq
    have hpre : (r ++ frag) ++ frags2.flatten = (fs.map Message.serialize).flatten := by
      rw [← heq]
      simp [List.append_assoc]
    obtain ⟨gs, hs, r2, s, hsplit, hPdec, hinc2, hrs⟩ :=
      prefix_decomp fs hgood (r ++ frag) frags2.flatten hpre
    have hgoodgs : ∀ g ∈ gs, goodFrame g := by
      intro g hg
      exact hgood g (by rw [hsplit]; exact List.mem_append_left hs hg)
    have hgoodhs : ∀ g ∈ hs, goodFrame g := by
      intro g hg
      exact hgood g (by rw [hsplit]; exact List.mem_append_right gs hg)
    have hs_eq : s = frags2.flatten := by
      have h1 : (fs.map Message.serialize).flatten =
          (gs.map Message.serialize).flatten ++ (hs.map Message.serialize).flatten := by
        rw [hsplit, List.map_append, List.flatten_append]
      rw [h1, hrs] at hpre
      rw [hPdec] at hpre
      rw [List.append_assoc] at hpre
      have h2 := List.append_cancel_left hpre
      have h3 := List.append_cancel_left h2
      exact h3.symm
    have hdrain : drain (r ++ frag) = (gs, r2, stallErr r2) := by
      unfold drain
      rw [hPdec]
      exact drainLoop_stream gs hgoodgs r2 hinc2 _ (Nat.le_refl _)
    simp only [feedLoop]
    rw [hdrain]
    dsimp only
    rw [ih hs r2 hgoodhs hinc2 (by rw [hs_eq] at hrs; exact hrs.symm)]
    rw [hsplit]

/-- C4 (amended): for every sequence of frames with byte-sized tags and
NON-EMPTY payloads below the 4-byte-length ceiling, and every partition of the
concatenation of their serializations into fragments, feeding the fragments in
order and draining `TryDeserialize` after each feed yields exactly the
original frames in order with an empty final buffer (no byte loss, no
spurious frames); and an `ErrIncompletePayload` (NeedPayload) result always
leaves the buffer unchanged.  A frame with an EMPTY payload breaks the
property — see the counterexample. -/
theorem stream_reassembly (fs : List Message) (frags : List (List Nat))
    (hgood : ∀ f ∈ fs, goodFrame f)
    (hpart : frags.flatten = (fs.map Message.serialize).flatten) :
    feedLoop [] frags = (fs, []) ∧
    (∀ buf b, tryDeserialize buf = (.error .incompletePayload, b) → b = buf) :=
  ⟨feedLoop_stream frags fs [] hgood rfl (by simpa using hpart),
   fun buf b h => tryDeserialize_err buf .incompletePayload b h⟩

/-- Witness for C4: frames (2, [97]) and (4, [98, 99]); their 13-byte stream
is fed in two fragments split mid-frame (after byte 7). -/
theorem stream_reassembly_witness :
    feedLoop [] [[2, 0, 0, 0, 1, 97, 4], [0, 0, 0, 2, 98, 99]] =
      ([⟨2, [97]⟩, ⟨4, [98, 99]⟩], []) :=
  (stream_reassembly [⟨2, [97]⟩, ⟨4, [98, 99]⟩]
    [[2, 0, 0, 0, 1, 97, 4], [0, 0, 0, 2, 98, 99]]
    (by decide) (by decide)).1

/-- Counterexample to C4 as stated: the single frame (4, []) with an empty
payload serializes to [4,0,0,0,0]; feeding that fragment and draining yields
NO frame (the internal `Deserialize` fails with io.EOF and the bytes stay in
the buffer forever), not the frame itself. -/
theorem stream_reassembly_empty_frame_cex :
    [[4, 0, 0, 0, 0]].flatten =
      (([⟨4, []⟩] : List Message).map Message.serialize).flatten ∧
    feedLoop [] [[4, 0, 0, 0, 0]] = ([], [4, 0, 0, 0, 0]) ∧
    ([] : List Message) ≠ [⟨4, []⟩] :=
  ⟨by decide, rfl, by decide⟩

/-! ## C1 — chunk-sum of the chunked download -/

theorem ceil_le_mul (n cs : Nat) (hcs : 0 < cs) : n ≤ ((n + cs - 1) / cs) * cs := by
  have h := Nat.div_add_mod (n + cs - 1) cs
  have hr : (n + cs - 1) % cs < cs := Nat.mod_lt _ hcs
  have hmul : ((n + cs - 1) / cs) * cs = cs * ((n + cs - 1) / cs) := Nat.mul_comm _ _
  set q := (n + cs - 1) / cs
  set r := (n + cs - 1) % cs
  set A := q * cs
  set B := cs * q
  omega

theorem mul_lt_of_lt_ceil (n cs j : Nat) (hcs : 0 < cs) (hj : j < (n + cs - 1) / cs) :
    j * cs < n := by
  have h1 : (j + 1) * cs ≤ ((n + cs - 1) / cs) * cs := Nat.mul_le_mul_right cs hj
  have h2 : ((n + cs - 1) / cs) * cs ≤ n + cs - 1 := Nat.div_mul_le_self _ _
  have h3 : (j + 1) * cs = j * cs + cs := by ring
  set A := j * cs
  set B := (j + 1) * cs
  set C := ((n + cs - 1) / cs) * cs
  omega

theorem chunkSizeFor_pos (n : Nat) : 0 < chunkSizeFor n := by
  unfold chunkSizeFor
  split_ifs <;> decide

theorem chunkSizeFor_le (n : Nat) : chunkSizeFor n ≤ 262144 := by
  unfold chunkSizeFor
  split_ifs <;> decide

theorem chunksFrom_length (fn : List Char) (F : List Nat) (cs tc n : Nat) :
    ∀ fuel i, (chunksFrom fn F cs tc n i fuel).length = fuel := by
  intro fuel
  induction fuel with
  | zero => intro i; rfl
  | succ k ih =>
    intro i
    simp only [chunksFrom, List.length_cons, ih]

theorem chunksFrom_flatten (fn : List Char) (F : List Nat) (cs tc : Nat) :
    ∀ fuel i, F.length ≤ (i + fuel) * cs →
      ((chunksFrom fn F cs tc F.length i fuel).map ChunkDataMessage.data).flatten =
        F.drop (i * cs) := by
  intro fuel
  induction fuel with
  | zero =>
    intro i h
    simp only [chunksFrom, List.map_nil, List.flatten_nil]
    rw [Nat.add_zero] at h
    exact (List.drop_eq_nil_of_le h).symm
  | succ k ih =>
    intro i h
    simp only [chunksFrom, List.map_cons, List.flatten_cons]
    rw [ih (i + 1) (by
      have harith : (i + 1 + k) * cs = (i + (k + 1)) * cs := by ring
      rw [harith]
      exact h)]
    have harith2 : (i + 1) * cs = i * cs + cs := by ring
    rw [harith2, ← List.drop_drop, List.take_append_drop]

theorem chunksFrom_getD (fn : List Char) (F : List Nat) (cs tc n : Nat) :
    ∀ fuel i j, j < fuel →
      (chunksFrom fn F cs tc n i fuel).getD j default =
        ⟨fn, i + j, tc, min cs (n - (i + j) * cs), n, (F.drop ((i + j) * cs)).take cs⟩ := by
  intro fuel
  induction fuel with
  | zero => intro i j hj; exact absurd hj (Nat.not_lt_zero j)
  | succ k ih =>
    intro i j hj
    cases j with
    | zero =>
      simp only [chunksFrom, List.getD_cons_zero, Nat.add_zero]
    | succ j2 =>
      simp only [chunksFrom, List.getD_cons_succ]
      rw [ih (i + 1) j2 (by omega)]
      have harith : i + 1 + j2 = i + (j2 + 1) := by omega
      rw [harith]

theorem sendChunksLoop_ok (fn : List Char) (F : List Nat) (cs tc : Nat)
    (hcs : 0 < cs) (htc32 : tc * cs < 4294967296) (hub : F.length ≤ tc * cs)
    (hlb : ∀ j, j < tc → j * cs < F.length) :
    ∀ fuel i, i + fuel = tc →
      sendChunksLoop fn F cs tc F.length i fuel =
        some (chunksFrom fn F cs tc F.length i fuel) := by
  intro fuel
  induction fuel with
  | zero => intro i _; rfl
  | succ k ih =>
    intro i hi
    have hitc : i < tc := by omega
    have hmono1 : i * cs ≤ tc * cs := Nat.mul_le_mul_right cs (by omega)
    have hmono2 : (i + 1) * cs ≤ tc * cs := Nat.mul_le_mul_right cs (by omega)
    have hsucc : (i + 1) * cs = i * cs + cs := by ring
    have hn32 : F.length < 4294967296 := by omega
    have hilow : i * cs < F.length := hlb i hitc
    simp only [sendChunksLoop]
    have hu1 : u32 (i * cs) = i * cs := Nat.mod_eq_of_lt (by omega)
    have hu2 : u32 (i * cs + cs) = i * cs + cs := Nat.mod_eq_of_lt (by omega)
    have hu3 : u32 F.length = F.length := Nat.mod_eq_of_lt hn32
    rw [hu1, hu2, hu3]
    have hcs32 : cs < 4294967296 := by
      have : 1 * cs ≤ tc * cs := Nat.mul_le_mul_right cs (by omega)
      omega
    by_cases hclamp : F.length < i * cs + cs
    · rw [if_pos hclamp]
      have hslice : sliceGo F (i * cs) F.length =
          some ((F.drop (i * cs)).take (F.length - i * cs)) := by
        unfold sliceGo
        rw [if_pos ⟨by omega, Nat.le_refl _⟩]
      rw [hslice, ih (i + 1) (by omega)]
      have hdlen : (F.drop (i * cs)).length = F.length - i * cs := List.length_drop _ _
      have hdata : (F.drop (i * cs)).take (F.length - i * cs) = (F.drop (i * cs)).take cs := by
        rw [← hdlen, List.take_length, List.take_of_length_le (by omega)]
      have hsz : u32 ((F.drop (i * cs)).take (F.length - i * cs)).length =
          min cs (F.length - i * cs) := by
        rw [List.length_take, hdlen]
        have hmin1 : min (F.length - i * cs) (F.length - i * cs) = F.length - i * cs := by omega
        have hmin2 : min cs (F.length - i * cs) = F.length - i * cs := by omega
        rw [hmin1, hmin2]
        exact Nat.mod_eq_of_lt (by omega)
      simp only [chunksFrom]
      rw [hsz, hdata]
    · rw [if_neg hclamp]
      have hslice : sliceGo F (i * cs) (i * cs + cs) =
          some ((F.drop (i * cs)).take cs) := by
        unfold sliceGo
        rw [if_pos ⟨by omega, by omega⟩]
        have harith : i * cs + cs - i * cs = cs := by omega
        rw [harith]
      rw [hslice, ih (i + 1) (by omega)]
      have hdlen : (F.drop (i * cs)).length = F.length - i * cs := List.length_drop _ _
      have hsz : u32 ((F.drop (i * cs)).take cs).length = min cs (F.length - i * cs) := by
        rw [List.length_take, hdlen]
        exact Nat.mod_eq_of_lt (by omega)
      simp only [chunksFrom]
      rw [hsz]

/-- C1 (amended): for every file of at most 2^32 − 2^18 bytes (4294705152;
beyond this the uint32 chunk arithmetic overflows — see the counterexample),
the server emits chunks in index order 0..total_chunks−1, the concatenation
of their data equals the file, total_chunks equals ⌈|F| / cs⌉ for the nominal
chunk size cs selected from |F| (64 KiB below 256 KiB, 128 KiB below 5 MiB,
256 KiB otherwise), every chunk's chunk_size field equals its data length,
every chunk's data is at most cs bytes, and every chunk but the last is
exactly cs bytes. -/
theorem chunk_sum (fn : List Char) (F : List Nat) (hF : F.length ≤ 4294705152) :
    ∃ chunks, sendFileInChunks fn F = some chunks ∧
      chunks.length = (F.length + chunkSizeFor F.length - 1) / chunkSizeFor F.length ∧
      (chunks.map ChunkDataMessage.data).flatten = F ∧
      ∀ j, j < chunks.length →
        (chunks.getD j default).chunkIndex = j ∧
        (chunks.getD j default).totalChunks = chunks.length ∧
        (chunks.getD j default).totalSize = F.length ∧
        (chunks.getD j default).chunkSize = (chunks.getD j default).data.length ∧
        (chunks.getD j default).data.length ≤ chunkSizeFor F.length ∧
        (j + 1 < chunks.length →
          (chunks.getD j default).data.length = chunkSizeFor F.length) := by
  have hcs0 : 0 < chunkSizeFor F.length := chunkSizeFor_pos F.length
  have hcsle : chunkSizeFor F.length ≤ 262144 := chunkSizeFor_le F.length
  have hub : F.length ≤ ((F.length + chunkSizeFor F.length - 1) / chunkSizeFor F.length) *
      chunkSizeFor F.length := ceil_le_mul F.length (chunkSizeFor F.length) hcs0
  have hmle : ((F.length + chunkSizeFor F.length - 1) / chunkSizeFor F.length) *
      chunkSizeFor F.length ≤ F.length + chunkSizeFor F.length - 1 :=
    Nat.div_mul_le_self _ _
  have htc32 : ((F.length + chunkSizeFor F.length - 1) / chunkSizeFor F.length) *
      chunkSizeFor F.length < 4294967296 := by omega
  have hlb : ∀ j, j < (F.length + chunkSizeFor F.length - 1) / chunkSizeFor F.length →
      j * chunkSizeFor F.length < F.length :=
    fun j hj => mul_lt_of_lt_ceil F.length (chunkSizeFor F.length) j hcs0 hj
  have htcsmall : (F.length + chunkSizeFor F.length - 1) / chunkSizeFor F.length
      < 4294967296 := by
    have h1 : ((F.length + chunkSizeFor F.length - 1) / chunkSizeFor F.length) * 1 ≤
        ((F.length + chunkSizeFor F.length - 1) / chunkSizeFor F.length) *
          chunkSizeFor F.length :=
      Nat.mul_le_mul_left _ hcs0
    omega
  have hloop := sendChunksLoop_ok fn F (chunkSizeFor F.length)
    ((F.length + chunkSizeFor F.length - 1) / chunkSizeFor F.length)
    hcs0 htc32 hub hlb
    ((F.length + chunkSizeFor F.length - 1) / chunkSizeFor F.length) 0 (by omega)
  have hsend : sendFileInChunks fn F =
      some (chunksFrom fn F (chunkSizeFor F.length)
        ((F.length + chunkSizeFor F.length - 1) / chunkSizeFor F.length) F.length 0
        ((F.length + chunkSizeFor F.length - 1) / chunkSizeFor F.length)) := by
    unfold sendFileInChunks
    dsimp only
    have hu64a : u64 F.length = F.length := Nat.mod_eq_of_lt (by omega)
    rw [hu64a]
    have hu64b : u64 (F.length + chunkSizeFor F.length - 1) =
        F.length + chunkSizeFor F.length - 1 := Nat.mod_eq_of_lt (by omega)
    rw [hu64b]
    have hu32tc : u32 ((F.length + chunkSizeFor F.length - 1) / chunkSizeFor F.length) =
        (F.length + chunkSizeFor F.length - 1) / chunkSizeFor F.length :=
      Nat.mod_eq_of_lt htcsmall
    rw [hu32tc, hloop]
  refine ⟨_, hsend, chunksFrom_length _ _ _ _ _ _ _, ?_, ?_⟩
  · have := chunksFrom_flatten fn F (chunkSizeFor F.length)
      ((F.length + chunkSizeFor F.length - 1) / chunkSizeFor F.length)
      ((F.length + chunkSizeFor F.length - 1) / chunkSizeFor F.length) 0
      (by simpa using hub)
    simpa using this
  · intro j hj
    rw [chunksFrom_length] at hj
    have hg := chunksFrom_getD fn F (chunkSizeFor F.length)
      ((F.length + chunkSizeFor F.length - 1) / chunkSizeFor F.length) F.length
      ((F.length + chunkSizeFor F.length - 1) / chunkSizeFor F.length) 0 j hj
    rw [Nat.zero_add] at hg
    rw [hg, chunksFrom_length]
    have hdlen : ((F.drop (j * chunkSizeFor F.length)).take (chunkSizeFor F.length)).length =
        min (chunkSizeFor F.length) (F.length - j * chunkSizeFor F.length) := by
      rw [List.length_take, List.length_drop]
    refine ⟨rfl, rfl, rfl, ?_, ?_, ?_⟩
    · exact hdlen.symm
    · rw [hdlen]
      omega
    · intro hjlast
      rw [hdlen]
      have hnext := hlb (j + 1) hjlast
      have hsucc : (j + 1) * chunkSizeFor F.length =
          j * chunkSizeFor F.length + chunkSizeFor F.length := by ring
      omega

/-- Witness for C1 (amended): a 3-byte file is sent as one chunk whose data
concatenates back to the file. -/
theorem chunk_sum_witness :
    ∃ chunks, sendFileInChunks ['f'] [1, 2, 3] = some chunks ∧
      (chunks.map ChunkDataMessage.data).flatten = [1, 2, 3] := by
  obtain ⟨chunks, h1, _, h3, _⟩ := chunk_sum ['f'] [1, 2, 3] (by decide)
  exact ⟨chunks, h1, h3⟩

theorem sendChunksLoop_overflow (fn : List Char) :
    ∀ fuel i, i + fuel = 16384 → 1 ≤ fuel →
      sendChunksLoop fn (List.replicate 4294705153 0) 262144 16384 4294705153 i fuel =
        none := by
  intro fuel
  induction fuel with
  | zero => intro i h h1; omega
  | succ k ih =>
    intro i hi _
    have hlen : (List.replicate 4294705153 (0 : Nat)).length = 4294705153 :=
      List.length_replicate _ _
    simp only [sendChunksLoop]
    by_cases hk : k = 0
    · subst hk
      have hi16 : i = 16383 := by omega
      subst hi16
      have e1 : u32 (16383 * 262144) = 4294705152 := by decide
      have e2 : u32 (4294705152 + 262144) = 0 := by decide
      have e3 : u32 4294705153 = 4294705153 := by decide
      rw [e1, e2, e3]
      rw [if_neg (by omega : ¬ (4294705153 < 0))]
      have hslice : sliceGo (List.replicate 4294705153 0) 4294705152 0 = none := by
        unfold sliceGo
        rw [if_neg]
        intro hcon
        omega
      rw [hslice]
    · have hik : i ≤ 16382 := by omega
      have e1 : u32 (i * 262144) = i * 262144 := by
        unfold u32
        have : i * 262144 ≤ 16382 * 262144 := Nat.mul_le_mul_right _ hik
        omega
      have e2 : u32 (i * 262144 + 262144) = i * 262144 + 262144 := by
        unfold u32
        have : i * 262144 ≤ 16382 * 262144 := Nat.mul_le_mul_right _ hik
        omega
      have e3 : u32 4294705153 = 4294705153 := by decide
      rw [e1, e2, e3]
      have hhigh : i * 262144 + 262144 ≤ 4294705152 := by
        have : i * 262144 ≤ 16382 * 262144 := Nat.mul_le_mul_right _ hik
        omega
      rw [if_neg (by omega : ¬ (4294705153 < i * 262144 + 262144))]
      have hslice : sliceGo (List.replicate 4294705153 0) (i * 262144)
          (i * 262144 + 262144) =
          some (((List.replicate 4294705153 (0 : Nat)).drop (i * 262144)).take
            (i * 262144 + 262144 - i * 262144)) := by
        unfold sliceGo
        rw [if_pos ⟨by omega, by rw [hlen]; omega⟩]
      rw [hslice, ih (i + 1) (by omega) (by omega)]

/-- Counterexample to C1 as stated: for a file of 2^32 − 2^18 + 1 bytes
(4294705153) the chunk size is 256 KiB and total_chunks is 16384, but in the
final iteration `start+chunkSize` wraps to 0 in uint32, the clamp does not
fire, and the slice `fileData[4294705152:0]` panics (modelled as `none`) — no
chunk sequence concatenating to F is emitted, so the universally quantified
claim fails at this F. -/
theorem chunk_sum_overflow_cex :
    sendFileInChunks ['f'] (List.replicate 4294705153 0) = none := by
  unfold sendFileInChunks
  dsimp only
  have hlen : (List.replicate 4294705153 (0 : Nat)).length = 4294705153 :=
    List.length_replicate _ _
  rw [hlen]
  have h1 : u64 4294705153 = 4294705153 := by decide
  rw [h1]
  have hcs : chunkSizeFor 4294705153 = 262144 := by decide
  rw [hcs]
  have htc : u32 (u64 (4294705153 + 262144 - 1) / 262144) = 16384 := by decide
  rw [htc]
  exact sendChunksLoop_overflow ['f'] 16384 0 (by omega) (by omega)
